import Mathlib

/-!
# Live-stream WebSocket hub: registry, mailboxes and fan-out

A shallow embedding of `services/services.go` (the `Hub`, its `run` loop,
`broadcastToStream`, `GetStreamViewers`, the body of `Client.readPump`,
`NewClient`) and of `controllers.SendStreamAnnouncement`.

Modelling conventions

* A `*Client` is an address into `State.heap`, the list of every `Client`
  built so far.  `NewClient` is the only place that builds one, and it makes the
  `Send` channel together with the struct, so the channel's state (queued
  messages, capacity, closed flag) is stored with the client it belongs to.
* `Hub.Clients` (`map[string]*Client`) is an association list read through
  `lookup`; only the first binding of a key is visible and `delete` removes
  every binding, so every list denotes a map.
* Go leaves the iteration order of `range` over a map unspecified.  Each loop
  takes a `hint : List String`; `visitOrder` turns it into an enumeration of the
  keys in which every key occurs once.  Every enumeration is obtained from some
  hint (`visitOrder_of_perm`), and the results below hold for all hints.
* A run-time panic (send on a closed channel, close of a closed channel, nil
  dereference) is the `Except.error` outcome.
* `time.Now()` is the `now` argument of a step; the zero `time.Time` is `0`.
* `json.Marshal` is the parameter `marshal`.
* The hub loop, the pumps and the HTTP handlers are taken one step at a time,
  in the order in which they take effect on the registry.
-/

namespace LiveStream

/-! ## Data model -/

/-- A `[]byte` value. -/
abbrev Bytes := List UInt8

/-- A `time.Time` instant; `0` is the zero value. -/
abbrev Time := Nat

/-- The struct `WSMessage`.  `Typ` is the field `Type`; `Product` is the
`interface{}` payload, `none` when nil. -/
structure WSMessage where
  Typ : String
  StreamID : String
  UserID : String
  UserType : String
  Content : String
  Product : Option String
  Timestamp : Time
  deriving DecidableEq, Repr

/-- State of a buffered `chan []byte`: the queued messages (oldest first), the
capacity given to `make`, and whether `close` was called. -/
structure Chan where
  buf : List Bytes
  cap : Nat
  closed : Bool
  deriving DecidableEq, Repr

/-- The struct `Client` (the connection is left out), with its `Send` channel. -/
structure Client where
  ID : String
  StreamID : String
  UserType : String
  Send : Chan
  deriving DecidableEq, Repr

/-- Run-time panics of the Go program. -/
inductive Panic where
  | sendOnClosed
  | closeOfClosed
  | nilDeref
  deriving DecidableEq, Repr

/-- The hub's registry together with the clients it points to. -/
structure State where
  Clients : List (String × Nat)
  heap : List Client
  deriving DecidableEq, Repr

/-- `Hub_Instance` at start-up: an empty map, no client built yet. -/
def State.init : State := { Clients := [], heap := [] }

/-! ## Channels -/

/-- The statement `select { case ch <- m: default: }`: `some ch1` when the
message was queued, `none` when the default branch was taken; sending on a
closed channel panics. -/
def Chan.trySend (ch : Chan) (m : Bytes) : Except Panic (Option Chan) :=
  if ch.closed then .error .sendOnClosed
  else if ch.buf.length < ch.cap then .ok (some { ch with buf := ch.buf ++ [m] })
  else .ok none

/-- The statement `close(ch)`. -/
def Chan.close (ch : Chan) : Except Panic Chan :=
  if ch.closed then .error .closeOfClosed
  else .ok { ch with closed := true }

/-- The channel built by `make(chan []byte, 256)`. -/
def Chan.make256 : Chan := { buf := [], cap := 256, closed := false }

/-! ## The map `Hub.Clients` -/

/-- The lookup `h.Clients[k]`. -/
def lookup : List (String × Nat) → String → Option Nat
  | [], _ => none
  | (k1, p) :: rest, k => if k1 = k then some p else lookup rest k

/-- The statement `delete(h.Clients, k)`. -/
def delete (cs : List (String × Nat)) (k : String) : List (String × Nat) :=
  cs.filter (fun e => decide (e.1 ≠ k))

/-- The statement `h.Clients[k] = p`. -/
def put (cs : List (String × Nat)) (k : String) (p : Nat) : List (String × Nat) :=
  (k, p) :: delete cs k

/-- The keys of the map. -/
def keys (cs : List (String × Nat)) : List String := cs.map Prod.fst

/-- An enumeration of the keys of the map, each once: the keys named by `hint`
last, in the order of `hint`. -/
def visitOrder (hint : List String) (cs : List (String × Nat)) : List String :=
  ((keys cs ++ hint).dedup).filter (fun k => decide (k ∈ keys cs))

/-- A `for ... range h.Clients` loop over the keys `ks` with loop state `σ`. -/
def forRange {σ : Type} (body : σ → String → Except Panic σ) : List String → σ → Except Panic σ
  | [], s => .ok s
  | k :: ks, s =>
    match body s k with
    | .error e => .error e
    | .ok s1 => forRange body ks s1

/-! ## `Hub.broadcastToStream` and `Hub.GetStreamViewers` -/

/-- One iteration of the loop of `broadcastToStream`, at key `k`.  An entry
deleted before it is reached is not produced. -/
def deliver (streamID : String) (message : Bytes) (st : State) (k : String) : Except Panic State :=
  match lookup st.Clients k with
  | none => .ok st
  | some p =>
    match st.heap[p]? with
    | none => .error .nilDeref
    | some client =>
      if client.StreamID = streamID then
        match client.Send.trySend message with
        | .error e => .error e
        | .ok (some ch) => .ok { st with heap := st.heap.set p { client with Send := ch } }
        | .ok none =>
          match client.Send.close with
          | .error e => .error e
          | .ok ch =>
            .ok { Clients := delete st.Clients client.ID,
                  heap := st.heap.set p { client with Send := ch } }
      else .ok st

/-- The method `Hub.broadcastToStream` (and `BroadcastToStream`, which only calls it). -/
def broadcastToStream (hint : List String) (st : State) (streamID : String) (message : Bytes) :
    Except Panic State :=
  forRange (deliver streamID message) (visitOrder hint st.Clients) st

/-- One iteration of the loop of `GetStreamViewers`. -/
def countViewer (st : State) (streamID : String) (acc : Nat × List String) (k : String) :
    Except Panic (Nat × List String) :=
  match lookup st.Clients k with
  | none => .ok acc
  | some p =>
    match st.heap[p]? with
    | none => .error .nilDeref
    | some client =>
      if client.StreamID = streamID ∧ client.UserType = "viewer" then
        .ok (acc.1 + 1, acc.2 ++ [client.ID])
      else .ok acc

/-- The method `Hub.GetStreamViewers`. -/
def GetStreamViewers (hint : List String) (st : State) (streamID : String) :
    Except Panic (Nat × List String) :=
  forRange (countViewer st streamID) (visitOrder hint st.Clients) (0, [])

/-! ## `Hub.run`: the Register and Unregister cases -/

/-- The message built in the Register case. -/
def viewerJoined (client : Client) (now : Time) : WSMessage :=
  { Typ := "viewer_joined", StreamID := client.StreamID, UserID := client.ID,
    UserType := client.UserType, Content := "", Product := none, Timestamp := now }

/-- The message built in the Unregister case. -/
def viewerLeft (client : Client) (now : Time) : WSMessage :=
  { Typ := "viewer_left", StreamID := client.StreamID, UserID := client.ID,
    UserType := client.UserType, Content := "", Product := none, Timestamp := now }

/-- The case `client := <-h.Register` of `Hub.run`, for the client at address `p`. -/
def register (marshal : WSMessage → Bytes) (hint : List String) (now : Time) (p : Nat)
    (st : State) : Except Panic State :=
  match st.heap[p]? with
  | none => .error .nilDeref
  | some client =>
    let st1 : State := { st with Clients := put st.Clients client.ID p }
    if client.UserType = "viewer" then
      broadcastToStream hint st1 client.StreamID (marshal (viewerJoined client now))
    else .ok st1

/-- The locked block of the case `client := <-h.Unregister`: delete and close
when the id is a key of the map. -/
def unregisterLocked (p : Nat) (client : Client) (st : State) : Except Panic State :=
  match lookup st.Clients client.ID with
  | some _ =>
    match client.Send.close with
    | .error e => .error e
    | .ok ch =>
      .ok { Clients := delete st.Clients client.ID,
            heap := st.heap.set p { client with Send := ch } }
  | none => .ok st

/-- The case `client := <-h.Unregister` of `Hub.run`, for the client at address `p`. -/
def unregister (marshal : WSMessage → Bytes) (hint : List String) (now : Time) (p : Nat)
    (st : State) : Except Panic State :=
  match st.heap[p]? with
  | none => .error .nilDeref
  | some client =>
    match unregisterLocked p client st with
    | .error e => .error e
    | .ok st1 =>
      if client.UserType = "viewer" then
        broadcastToStream hint st1 client.StreamID (marshal (viewerLeft client now))
      else .ok st1

/-! ## `NewClient` -/

/-- The struct literal of `NewClient`: a client with a fresh open mailbox of
capacity 256, stored at the next free address. -/
def allocClient (userID streamID userType : String) (st : State) : Nat × State :=
  (st.heap.length,
   { st with heap := st.heap ++ [{ ID := userID, StreamID := streamID, UserType := userType,
                                   Send := Chan.make256 }] })

/-- The function `NewClient` up to the hub having processed the registration
(the pumps are started after that). -/
def NewClient (marshal : WSMessage → Bytes) (hint : List String) (now : Time)
    (userID streamID userType : String) (st : State) : Except Panic (Nat × State) :=
  match register marshal hint now (allocClient userID streamID userType st).1
      (allocClient userID streamID userType st).2 with
  | .error e => .error e
  | .ok st1 => .ok ((allocClient userID streamID userType st).1, st1)

/-! ## `Client.readPump`: one decoded inbound message -/

/-- Lines 172-175: the identity fields and the timestamp are overwritten. -/
def stamp (c : Client) (now : Time) (message : WSMessage) : WSMessage :=
  { message with UserID := c.ID, UserType := c.UserType, StreamID := c.StreamID, Timestamp := now }

/-- The `switch message.Type` of `readPump`: the message handed to
`broadcastToStream`, or `none` when no branch broadcasts. -/
def readPumpOutgoing (c : Client) (now : Time) (wire : WSMessage) : Option WSMessage :=
  let message := stamp c now wire
  if message.Typ = "chat" then some message
  else if message.Typ = "product_showcase" then
    (if c.UserType = "seller" then some message else none)
  else if message.Typ = "purchase_intent" then
    (if c.UserType = "viewer" then some message else none)
  else if message.Typ = "special_offer" then
    (if c.UserType = "seller" then some message else none)
  else none

/-- The body of the loop of `readPump` for one successfully decoded message of
the client at address `p`. -/
def readPumpMessage (marshal : WSMessage → Bytes) (hint : List String) (now : Time) (p : Nat)
    (wire : WSMessage) (st : State) : Except Panic State :=
  match st.heap[p]? with
  | none => .error .nilDeref
  | some c =>
    match readPumpOutgoing c now wire with
    | some message => broadcastToStream hint st c.StreamID (marshal message)
    | none => .ok st

/-! ## `controllers.SendStreamAnnouncement` -/

/-- The decoded request body of `SendStreamAnnouncement`. -/
structure AnnouncementRequest where
  Message : String
  UserID : String
  UserType : String
  deriving DecidableEq, Repr

/-- The `services.WSMessage` literal of `SendStreamAnnouncement`; `Timestamp`
is not set and keeps its zero value. -/
def announcementMessage (streamID : String) (req : AnnouncementRequest) : WSMessage :=
  { Typ := "announcement", StreamID := streamID, UserID := req.UserID,
    UserType := req.UserType, Content := req.Message, Product := none, Timestamp := 0 }

/-- The message `SendStreamAnnouncement` passes to `BroadcastToStream`: `none`
when the body does not decode (status 400) or the role is not seller (403). -/
def announcementOutgoing (streamID : String) (body : Option AnnouncementRequest) :
    Option WSMessage :=
  match body with
  | none => none
  | some req => if req.UserType ≠ "seller" then none else some (announcementMessage streamID req)

/-- The handler `SendStreamAnnouncement`: HTTP status and the effect on the hub. -/
def SendStreamAnnouncement (marshal : WSMessage → Bytes) (hint : List String) (streamID : String)
    (body : Option AnnouncementRequest) (st : State) : Nat × Except Panic State :=
  match body with
  | none => (400, .ok st)
  | some req =>
    if req.UserType ≠ "seller" then (403, .ok st)
    else (200, broadcastToStream hint st streamID (marshal (announcementMessage streamID req)))

/-! ## Runs of the hub -/

/-- A step that changes the registry or a mailbox. -/
inductive Step where
  | newClient (userID streamID userType : String) (now : Time) (hint : List String)
  | unregister (p : Nat) (now : Time) (hint : List String)
  | broadcast (streamID : String) (message : Bytes) (hint : List String)
  deriving DecidableEq, Repr

/-- Effect of one step. -/
def step (marshal : WSMessage → Bytes) (st : State) : Step → Except Panic State
  | .newClient userID streamID userType now hint =>
    match NewClient marshal hint now userID streamID userType st with
    | .error e => .error e
    | .ok r => .ok r.2
  | .unregister p now hint => unregister marshal hint now p st
  | .broadcast streamID message hint => broadcastToStream hint st streamID message

/-- Effect of a sequence of steps; a panic ends the run. -/
def run (marshal : WSMessage → Bytes) : List Step → State → Except Panic State
  | [], st => .ok st
  | s :: rest, st =>
    match step marshal st s with
    | .error e => .error e
    | .ok st1 => run marshal rest st1

/-! ## Concrete data used in the examples -/

/-- A stand-in for `json.Marshal` on concrete examples: a byte for the type
tag, a byte for the timestamp, then the characters of the sender id. -/
def tagMarshal (m : WSMessage) : Bytes :=
  (if m.Typ = "viewer_joined" then 1 else if m.Typ = "viewer_left" then 2 else 0) ::
    UInt8.ofNat m.Timestamp :: m.UserID.toList.map (fun ch => UInt8.ofNat ch.toNat)

/-- A viewer on stream `s1` with three free mailbox slots. -/
def exampleViewer : Client :=
  { ID := "a", StreamID := "s1", UserType := "viewer",
    Send := { buf := [[1]], cap := 4, closed := false } }

/-- A viewer on stream `s1` whose mailbox is full. -/
def exampleFull : Client :=
  { ID := "c", StreamID := "s1", UserType := "viewer",
    Send := { buf := [[9]], cap := 1, closed := false } }

/-- A viewer as built by `NewClient`, not registered yet. -/
def exampleNew : Client :=
  { ID := "v", StreamID := "s1", UserType := "viewer", Send := Chan.make256 }

/-- A hub with three registered clients and one client still to be registered. -/
def exampleState : State :=
  { Clients := [("a", 0), ("b", 1), ("c", 2)],
    heap := [exampleViewer,
             { ID := "b", StreamID := "s2", UserType := "seller",
               Send := { buf := [], cap := 256, closed := false } },
             exampleFull,
             exampleNew] }

/-- An inbound chat message whose identity fields and timestamp are forged. -/
def forgedChat : WSMessage :=
  { Typ := "chat", StreamID := "s9", UserID := "mallory", UserType := "seller",
    Content := "hello", Product := none, Timestamp := 99 }

/-- A run of three steps from start-up. -/
def exampleRun : List Step :=
  [Step.newClient "w" "s" "viewer" 1 [], Step.newClient "c" "s" "seller" 2 [],
   Step.broadcast "s" [7] ["w"]]

/-- The state reached by `exampleRun`. -/
def exampleRunState : State :=
  { Clients := [("c", 1), ("w", 0)],
    heap := [{ ID := "w", StreamID := "s", UserType := "viewer",
               Send := { buf := [[1, 1, 119], [7]], cap := 256, closed := false } },
             { ID := "c", StreamID := "s", UserType := "seller",
               Send := { buf := [[7]], cap := 256, closed := false } }] }

/-- A viewer registers, receiving its own `viewer_joined`, and does not drain
its mailbox while 255 messages are broadcast to its stream. -/
def saturatingRun : List Step :=
  Step.newClient "u1" "s" "viewer" 1 [] :: List.replicate 255 (Step.broadcast "s" [7] [])

/-- The state after `saturatingRun`: the mailbox of `u1` holds 256 messages. -/
def saturatedState : State :=
  { Clients := [("u1", 0)],
    heap := [{ ID := "u1", StreamID := "s", UserType := "viewer",
               Send := { buf := [1, 1, 117, 49] :: List.replicate 255 [7], cap := 256,
                         closed := false } }] }

/-- The state after one more broadcast: `u1` is evicted. -/
def evictedState : State :=
  { Clients := [],
    heap := [{ ID := "u1", StreamID := "s", UserType := "viewer",
               Send := { buf := [1, 1, 117, 49] :: List.replicate 255 [7], cap := 256,
                         closed := true } }] }

/-- The state after a second client has registered under the id `u1`. -/
def reconnectedState : State :=
  { Clients := [("u1", 1)],
    heap := [{ ID := "u1", StreamID := "s", UserType := "viewer",
               Send := { buf := [1, 1, 117, 49] :: List.replicate 255 [7], cap := 256,
                         closed := true } },
             { ID := "u1", StreamID := "s", UserType := "viewer",
               Send := { buf := [[1, 2, 117, 49]], cap := 256, closed := false } }] }

/-! ## The registry invariant -/

/-- The registry invariant: every entry of `Hub.Clients` is stored under its own
client's id and has an open mailbox holding at most capacity messages. -/
def Inv (st : State) : Prop :=
  ∀ k p, lookup st.Clients k = some p →
    ∃ c, st.heap[p]? = some c ∧ c.ID = k ∧ c.Send.closed = false ∧ c.Send.buf.length ≤ c.Send.cap

/-- A client after one delivery attempt on its open mailbox. -/
def Client.receive (c : Client) (m : Bytes) : Client :=
  if c.Send.buf.length < c.Send.cap then
    { c with Send := { c.Send with buf := c.Send.buf ++ [m] } }
  else { c with Send := { c.Send with closed := true } }

/-! ## The map and the iteration order -/

theorem lookup_delete (cs : List (String × Nat)) (k k1 : String) :
    lookup (delete cs k) k1 = if k1 = k then none else lookup cs k1 := by
  induction cs with
  | nil => simp [delete, lookup]
  | cons e rest ih =>
    obtain ⟨a, p⟩ := e
    simp only [delete] at ih ⊢
    by_cases ha : a = k
    · subst ha
      simp only [List.filter_cons, ne_eq, not_true_eq_false, decide_False, Bool.false_eq_true, if_false, ih, lookup]
      by_cases h1 : k1 = a
      · simp [h1]
      · have : ¬ a = k1 := fun h => h1 h.symm
        simp [h1, this]
    · simp only [List.filter_cons, ne_eq, ha, not_false_eq_true, decide_True, if_true, lookup, ih]
      by_cases h1 : a = k1
      · subst h1; simp [ha]
      · simp [h1]

theorem lookup_put (cs : List (String × Nat)) (k k1 : String) (p : Nat) :
    lookup (put cs k p) k1 = if k1 = k then some p else lookup cs k1 := by
  simp only [put, lookup, lookup_delete]
  by_cases h : k = k1
  · subst h; simp
  · have : ¬ k1 = k := fun h1 => h h1.symm
    simp [h, this]

theorem mem_keys_iff (cs : List (String × Nat)) (k : String) :
    k ∈ keys cs ↔ ∃ p, lookup cs k = some p := by
  induction cs with
  | nil => simp [keys, lookup]
  | cons e rest ih =>
    obtain ⟨a, p⟩ := e
    simp only [keys, List.map_cons, List.mem_cons, lookup] at ih ⊢
    by_cases h : a = k
    · subst h; simp
    · have : ¬ k = a := fun h1 => h h1.symm
      simp [h, this, ih]

theorem visitOrder_nodup (hint : List String) (cs : List (String × Nat)) :
    (visitOrder hint cs).Nodup :=
  (List.nodup_dedup _).filter _

theorem mem_visitOrder (hint : List String) (cs : List (String × Nat)) (k : String) :
    k ∈ visitOrder hint cs ↔ k ∈ keys cs := by
  simp only [visitOrder, List.mem_filter, List.mem_dedup, List.mem_append, decide_eq_true_eq]
  tauto

theorem visitOrder_of_perm (hint : List String) (cs : List (String × Nat))
    (hnd : hint.Nodup) (hmem : ∀ k, k ∈ hint ↔ k ∈ keys cs) : visitOrder hint cs = hint := by
  have h1 : (keys cs ++ hint).dedup = hint := by
    rw [List.dedup_append, List.Nodup.dedup hnd]
    generalize keys cs = l at hmem
    have hsub : ∀ k ∈ l, k ∈ hint := fun k hk => (hmem k).2 hk
    clear hmem
    induction l with
    | nil => rfl
    | cons a l ih =>
      have h2 : l ∪ hint = hint := ih (fun k hk => hsub k (List.mem_cons_of_mem _ hk))
      show List.insert a (l ∪ hint) = hint
      rw [h2]
      exact List.insert_of_mem (hsub a (List.mem_cons_self _ _))
  simp only [visitOrder, h1]
  rw [List.filter_eq_self]
  intro k hk
  simpa using (hmem k).1 hk


theorem Client.receive_ID (c : Client) (m : Bytes) : (c.receive m).ID = c.ID := by
  unfold Client.receive; split <;> rfl

theorem Client.receive_StreamID (c : Client) (m : Bytes) :
    (c.receive m).StreamID = c.StreamID := by
  unfold Client.receive; split <;> rfl

theorem Client.receive_UserType (c : Client) (m : Bytes) :
    (c.receive m).UserType = c.UserType := by
  unfold Client.receive; split <;> rfl

theorem heap_set_self {l : List Client} {p : Nat} {c : Client} (h : l[p]? = some c)
    (c1 : Client) : (l.set p c1)[p]? = some c1 := by
  have hp : p < l.length := by
    by_contra hn
    rw [List.getElem?_eq_none (Nat.le_of_not_lt hn)] at h
    cases h
  simp [List.getElem?_set, hp]

theorem heap_set_ne (l : List Client) {p q : Nat} (h : p ≠ q) (c1 : Client) :
    (l.set p c1)[q]? = l[q]? := by
  simp [List.getElem?_set, h]

theorem deliver_spec (X : String) (m : Bytes) (k : String) (st : State) (hinv : Inv st) :
    ∃ st1, deliver X m st k = .ok st1 ∧ Inv st1 ∧ st1.heap.length = st.heap.length ∧
      (∀ q c, st.heap[q]? = some c → st1.heap[q]? = some
        (if lookup st.Clients k = some q ∧ c.StreamID = X then c.receive m else c)) ∧
      (∀ k1, k1 ≠ k → lookup st1.Clients k1 = lookup st.Clients k1) ∧
      (∀ q c, lookup st.Clients k = some q → st.heap[q]? = some c →
        lookup st1.Clients k =
          if c.StreamID = X ∧ c.Send.cap ≤ c.Send.buf.length then none else some q) ∧
      (lookup st.Clients k = none → lookup st1.Clients k = none) := by
  unfold deliver
  cases hl : lookup st.Clients k with
  | none =>
    refine ⟨st, rfl, hinv, rfl, ?_, fun _ _ => rfl, ?_, fun _ => hl⟩
    · intro q c hq; simp [hq]
    · intro q c h; cases h
  | some p =>
    obtain ⟨c0, hc0, hid, hopen, hlen⟩ := hinv k p hl
    simp only [hc0]
    by_cases hX : c0.StreamID = X
    · simp only [hX, if_true, Chan.trySend, hopen, Bool.false_eq_true, if_false]
      by_cases hroom : c0.Send.buf.length < c0.Send.cap
      · simp only [hroom, if_true]
        refine ⟨_, rfl, ?_, by simp, ?_, fun _ _ => rfl, ?_, by simp⟩
        · intro k1 p1 h1
          obtain ⟨c1, hc1, hid1, hopen1, hlen1⟩ := hinv k1 p1 h1
          by_cases hp : p = p1
          · subst hp
            rw [hc0] at hc1; cases hc1
            exact ⟨_, heap_set_self hc0 _, hid1, rfl, by simp; omega⟩
          · exact ⟨c1, by simp only [heap_set_ne _ hp]; exact hc1, hid1, hopen1, hlen1⟩
        · intro q c hq
          by_cases hp : p = q
          · subst hp
            rw [hc0] at hq; cases hq
            simp [heap_set_self hc0, hX, Client.receive, hroom, hopen]
          · simp only [heap_set_ne _ hp, hq, Option.some.injEq, hp, false_and, if_false]
        · intro q c h hq
          cases h
          rw [hc0] at hq; cases hq
          have : ¬ c0.Send.cap ≤ c0.Send.buf.length := by omega
          simp [this, hl]
      · simp only [hroom, if_false, Chan.close, hopen, Bool.false_eq_true]
        refine ⟨_, rfl, ?_, by simp, ?_, ?_, ?_, by simp⟩
        · intro k1 p1 h1
          simp only [lookup_delete, hid] at h1
          split at h1
          · cases h1
          · rename_i hk1
            obtain ⟨c1, hc1, hid1, hopen1, hlen1⟩ := hinv k1 p1 h1
            have hp : p ≠ p1 := by
              intro hp; subst hp
              rw [hc0] at hc1; cases hc1
              exact hk1 (hid1.symm.trans hid)
            exact ⟨c1, by simp only [heap_set_ne _ hp]; exact hc1, hid1, hopen1, hlen1⟩
        · intro q c hq
          by_cases hp : p = q
          · subst hp
            rw [hc0] at hq; cases hq
            simp only [heap_set_self hc0, true_and, hX, if_true, Client.receive, hroom, if_false]
          · simp only [heap_set_ne _ hp, hq, Option.some.injEq, hp, false_and, if_false]
        · intro k1 hk1
          simp [lookup_delete, hid, hk1]
        · intro q c h hq
          cases h
          rw [hc0] at hq; cases hq
          have : c0.Send.cap ≤ c0.Send.buf.length := by omega
          simp [lookup_delete, hid, hX, this]
    · simp only [hX, if_false]
      refine ⟨st, rfl, hinv, rfl, ?_, fun _ _ => rfl, ?_, by simp⟩
      · intro q c hq
        by_cases hp : p = q
        · subst hp
          rw [hc0] at hq; cases hq
          simp [hX, hc0]
        · simp [hp, hq]
      · intro q c h hq
        cases h
        rw [hc0] at hq; cases hq
        simp [hX, hl]


theorem inv_heap_eq {st : State} (hinv : Inv st) {k : String} {q : Nat} {c : Client}
    (hl : lookup st.Clients k = some q) (hq : st.heap[q]? = some c) :
    c.ID = k ∧ c.Send.closed = false ∧ c.Send.buf.length ≤ c.Send.cap := by
  obtain ⟨c1, hc1, h⟩ := hinv k q hl
  rw [hq] at hc1; cases hc1
  exact h

theorem forRange_deliver (X : String) (m : Bytes) :
    ∀ (ks : List String), ks.Nodup → ∀ st : State, Inv st →
    ∃ st1, forRange (deliver X m) ks st = .ok st1 ∧ Inv st1 ∧
      st1.heap.length = st.heap.length ∧
      (∀ q c, st.heap[q]? = some c → st1.heap[q]? = some
        (if lookup st.Clients c.ID = some q ∧ c.ID ∈ ks ∧ c.StreamID = X
          then c.receive m else c)) ∧
      (∀ k q c, lookup st.Clients k = some q → st.heap[q]? = some c →
        lookup st1.Clients k =
          if k ∈ ks ∧ c.StreamID = X ∧ c.Send.cap ≤ c.Send.buf.length then none else some q) ∧
      (∀ k, lookup st.Clients k = none → lookup st1.Clients k = none) := by
  intro ks
  induction ks with
  | nil =>
    intro _ st hinv
    exact ⟨st, rfl, hinv, rfl, by simp, fun _ _ _ h _ => by simp [h], fun _ h => h⟩
  | cons k ks ih =>
    intro hnd st hinv
    obtain ⟨hk, hnd1⟩ := List.nodup_cons.1 hnd
    obtain ⟨st1, e1, inv1, len1, heap1, lne1, lk1, lnone1⟩ := deliver_spec X m k st hinv
    obtain ⟨st2, e2, inv2, len2, heap2, look2, none2⟩ := ih hnd1 st1 inv1
    refine ⟨st2, by simp [forRange, e1, e2], inv2, by omega, ?_, ?_, ?_⟩
    · intro q c hq
      have h1 := heap1 q c hq
      by_cases hc : lookup st.Clients k = some q ∧ c.StreamID = X
      · rw [if_pos hc] at h1
        have h2 := heap2 q _ h1
        have hidk : c.ID = k := (inv_heap_eq hinv hc.1 hq).1
        have hnk : ¬ c.ID ∈ ks := by rw [hidk]; exact hk
        rw [Client.receive_ID, Client.receive_StreamID, if_neg (fun h => hnk h.2.1)] at h2
        rw [h2, if_pos]
        exact ⟨by rw [hidk]; exact hc.1, by rw [hidk]; exact List.mem_cons_self _ _, hc.2⟩
      · rw [if_neg hc] at h1
        have h2 := heap2 q c h1
        rw [h2]
        by_cases hck : c.ID = k
        · have hnk : ¬ c.ID ∈ ks := by rw [hck]; exact hk
          rw [if_neg (fun h => hnk h.2.1), if_neg]
          intro h
          exact hc ⟨by rw [← hck]; exact h.1, h.2.2⟩
        · rw [lne1 c.ID hck]
          simp only [List.mem_cons, hck, false_or]
    · intro k1 q c hl hq
      by_cases hkk : k1 = k
      · subst hkk
        have h1 := lk1 q c hl hq
        by_cases hev : c.StreamID = X ∧ c.Send.cap ≤ c.Send.buf.length
        · rw [if_pos hev] at h1
          rw [none2 _ h1, if_pos ⟨List.mem_cons_self _ _, hev⟩]
        · rw [if_neg hev] at h1
          have h2 := look2 k1 q _ h1 (heap1 q c hq)
          rw [h2, if_neg (fun h => hk h.1), if_neg (fun h => hev h.2)]
      · have h1 : lookup st1.Clients k1 = some q := by rw [lne1 k1 hkk]; exact hl
        have hcq := heap1 q c hq
        have hidc : c.ID = k1 := (inv_heap_eq hinv hl hq).1
        rw [if_neg] at hcq
        · have h2 := look2 k1 q c h1 hcq
          rw [h2]
          simp only [List.mem_cons, hkk, false_or]
        · intro h
          exact hkk (hidc.symm.trans (inv_heap_eq hinv h.1 hq).1)
    · intro k1 hn
      by_cases hkk : k1 = k
      · subst hkk
        exact none2 _ (lnone1 hn)
      · exact none2 _ (by rw [lne1 k1 hkk]; exact hn)

theorem broadcastToStream_spec (hint : List String) (st : State) (X : String) (m : Bytes)
    (hinv : Inv st) :
    ∃ st1, broadcastToStream hint st X m = .ok st1 ∧ Inv st1 ∧
      st1.heap.length = st.heap.length ∧
      (∀ q c, st.heap[q]? = some c → st1.heap[q]? = some
        (if lookup st.Clients c.ID = some q ∧ c.StreamID = X then c.receive m else c)) ∧
      (∀ k q c, lookup st.Clients k = some q → st.heap[q]? = some c →
        lookup st1.Clients k =
          if c.StreamID = X ∧ c.Send.cap ≤ c.Send.buf.length then none else some q) ∧
      (∀ k, lookup st.Clients k = none → lookup st1.Clients k = none) := by
  obtain ⟨st1, e, inv1, len1, heap1, look1, none1⟩ :=
    forRange_deliver X m (visitOrder hint st.Clients) (visitOrder_nodup _ _) st hinv
  refine ⟨st1, e, inv1, len1, ?_, ?_, none1⟩
  · intro q c hq
    rw [heap1 q c hq]
    by_cases hl : lookup st.Clients c.ID = some q
    · have : c.ID ∈ visitOrder hint st.Clients :=
        (mem_visitOrder _ _ _).2 ((mem_keys_iff _ _).2 ⟨q, hl⟩)
      simp [hl, this]
    · simp [hl]
  · intro k q c hl hq
    rw [look1 k q c hl hq]
    have : k ∈ visitOrder hint st.Clients :=
      (mem_visitOrder _ _ _).2 ((mem_keys_iff _ _).2 ⟨q, hl⟩)
    simp [this]

/-! ## Fan-out, registration and unregistration -/

theorem forRange_countViewer (st : State) (X : String) (hinv : Inv st) :
    ∀ (ks : List String) (acc : Nat × List String),
    ∃ r, forRange (countViewer st X) ks acc = .ok r ∧
      ∀ id, id ∈ r.2 ↔ id ∈ acc.2 ∨ (id ∈ ks ∧ ∃ p c, lookup st.Clients id = some p ∧
        st.heap[p]? = some c ∧ c.StreamID = X ∧ c.UserType = "viewer") := by
  intro ks
  induction ks with
  | nil => intro acc; exact ⟨acc, rfl, by simp⟩
  | cons k ks ih =>
    intro acc
    simp only [forRange, countViewer]
    cases hl : lookup st.Clients k with
    | none =>
      obtain ⟨r, hr, hmem⟩ := ih acc
      refine ⟨r, hr, fun id => ?_⟩
      rw [hmem id]
      constructor
      · rintro (h | ⟨h1, h2⟩)
        · exact Or.inl h
        · exact Or.inr ⟨List.mem_cons_of_mem _ h1, h2⟩
      · rintro (h | ⟨h1, p, c, h2, h3⟩)
        · exact Or.inl h
        · rcases List.mem_cons.1 h1 with h4 | h4
          · subst h4; rw [hl] at h2; cases h2
          · exact Or.inr ⟨h4, p, c, h2, h3⟩
    | some p =>
      obtain ⟨c0, hc0, hid, -, -⟩ := hinv k p hl
      simp only [hc0]
      by_cases hv : c0.StreamID = X ∧ c0.UserType = "viewer"
      · simp only [hv, and_self, if_true]
        obtain ⟨r, hr, hmem⟩ := ih (acc.1 + 1, acc.2 ++ [c0.ID])
        refine ⟨r, hr, fun id => ?_⟩
        rw [hmem id]
        simp only [List.mem_append, List.mem_cons, List.not_mem_nil, or_false, hid]
        constructor
        · rintro ((h | h) | ⟨h1, h2⟩)
          · exact Or.inl h
          · subst h; exact Or.inr ⟨Or.inl rfl, p, c0, hl, hc0, hv⟩
          · exact Or.inr ⟨Or.inr h1, h2⟩
        · rintro (h | ⟨h1 | h1, h2⟩)
          · exact Or.inl (Or.inl h)
          · exact Or.inl (Or.inr h1)
          · exact Or.inr ⟨h1, h2⟩
      · simp only [hv, if_false]
        obtain ⟨r, hr, hmem⟩ := ih acc
        refine ⟨r, hr, fun id => ?_⟩
        rw [hmem id]
        constructor
        · rintro (h | ⟨h1, h2⟩)
          · exact Or.inl h
          · exact Or.inr ⟨List.mem_cons_of_mem _ h1, h2⟩
        · rintro (h | ⟨h1, p1, c, h2, h3, h4⟩)
          · exact Or.inl h
          · rcases List.mem_cons.1 h1 with h5 | h5
            · subst h5
              rw [hl] at h2; cases h2
              rw [hc0] at h3; cases h3
              exact absurd h4 hv
            · exact Or.inr ⟨h5, p1, c, h2, h3, h4⟩

theorem GetStreamViewers_spec (hint : List String) (st : State) (X : String) (hinv : Inv st) :
    ∃ r, GetStreamViewers hint st X = .ok r ∧
      ∀ id, id ∈ r.2 ↔ ∃ p c, lookup st.Clients id = some p ∧
        st.heap[p]? = some c ∧ c.StreamID = X ∧ c.UserType = "viewer" := by
  obtain ⟨r, hr, hmem⟩ := forRange_countViewer st X hinv (visitOrder hint st.Clients) (0, [])
  refine ⟨r, hr, fun id => ?_⟩
  rw [hmem id]
  constructor
  · rintro (h | ⟨-, h⟩)
    · cases h
    · exact h
  · rintro ⟨p, c, h1, h2⟩
    exact Or.inr ⟨(mem_visitOrder _ _ _).2 ((mem_keys_iff _ _).2 ⟨p, h1⟩), p, c, h1, h2⟩

/-- C1. Channel isolation and delivery of `broadcastToStream(X, m)`: in a hub
state satisfying the registry invariant the call returns, every registered
client on stream `X` whose mailbox has a free slot has `m` appended as the last
element of its mailbox and stays registered, whatever the fill level of the
other mailboxes, and every registered client on another stream keeps its
mailbox and stays registered. -/
theorem broadcastToStream_delivers_by_stream (hint : List String) (st : State) (X : String)
    (m : Bytes) (hinv : Inv st) :
    ∃ st1, broadcastToStream hint st X m = .ok st1 ∧
      ∀ k p c, lookup st.Clients k = some p → st.heap[p]? = some c →
        (c.StreamID = X → c.Send.buf.length < c.Send.cap →
          st1.heap[p]? = some { c with Send := { c.Send with buf := c.Send.buf ++ [m] } } ∧
          lookup st1.Clients k = some p) ∧
        (c.StreamID ≠ X → st1.heap[p]? = some c ∧ lookup st1.Clients k = some p) := by
  obtain ⟨st1, e, -, -, heap1, look1, -⟩ := broadcastToStream_spec hint st X m hinv
  refine ⟨st1, e, fun k p c hl hp => ⟨fun hX hroom => ?_, fun hX => ?_⟩⟩
  · have hl1 : lookup st.Clients c.ID = some p := by rw [(inv_heap_eq hinv hl hp).1]; exact hl
    rw [heap1 p c hp, look1 k p c hl hp]
    have : ¬ c.Send.cap ≤ c.Send.buf.length := by omega
    simp [hl1, hX, this, Client.receive, hroom]
  · rw [heap1 p c hp, look1 k p c hl hp]
    simp [hX]

/-- C2. Backpressure eviction: a registered client `c` on stream `X` whose
mailbox is full is not given `m`; `broadcastToStream(X, m)` closes its mailbox
and removes `c.ID` from the registry, so `GetStreamViewers(X)` no longer lists
`c.ID`; every other mailbox is unchanged or has exactly `m` appended, so the
eviction queues no notification about `c`. -/
theorem broadcastToStream_evicts_full (hint : List String) (st : State) (X : String)
    (m : Bytes) (k : String) (p : Nat) (c : Client) (hinv : Inv st)
    (hl : lookup st.Clients k = some p) (hp : st.heap[p]? = some c)
    (hX : c.StreamID = X) (hfull : c.Send.buf.length = c.Send.cap) :
    ∃ st1, broadcastToStream hint st X m = .ok st1 ∧
      st1.heap[p]? = some { c with Send := { c.Send with closed := true } } ∧
      lookup st1.Clients c.ID = none ∧
      (∀ hint2, ∃ r, GetStreamViewers hint2 st1 X = .ok r ∧ c.ID ∉ r.2) ∧
      (∀ q d, q ≠ p → st.heap[q]? = some d → ∃ d1, st1.heap[q]? = some d1 ∧
        (d1.Send.buf = d.Send.buf ∨ d1.Send.buf = d.Send.buf ++ [m])) := by
  obtain ⟨st1, e, inv1, -, heap1, look1, -⟩ := broadcastToStream_spec hint st X m hinv
  have hid := (inv_heap_eq hinv hl hp).1
  have hnone : lookup st1.Clients c.ID = none := by
    rw [hid, look1 k p c hl hp]
    simp [hX, hfull]
  refine ⟨st1, e, ?_, hnone, fun hint2 => ?_, fun q d _ hq => ?_⟩
  · have hl1 : lookup st.Clients c.ID = some p := by rw [hid]; exact hl
    rw [heap1 p c hp]
    simp [hl1, hX, Client.receive, hfull]
  · obtain ⟨r, hr, hmem⟩ := GetStreamViewers_spec hint2 st1 X inv1
    refine ⟨r, hr, fun h => ?_⟩
    obtain ⟨p1, c1, h1, -⟩ := (hmem c.ID).1 h
    rw [hnone] at h1; cases h1
  · refine ⟨_, heap1 q d hq, ?_⟩
    split
    · unfold Client.receive
      split
      · exact Or.inr rfl
      · exact Or.inl rfl
    · exact Or.inl rfl


theorem inv_put {st : State} (hinv : Inv st) {p : Nat} {c : Client}
    (hp : st.heap[p]? = some c) (hopen : c.Send.closed = false)
    (hlen : c.Send.buf.length ≤ c.Send.cap) :
    Inv { st with Clients := put st.Clients c.ID p } := by
  intro k q h
  simp only [lookup_put] at h
  split at h
  · rename_i hk
    cases h
    exact ⟨c, hp, hk.symm, hopen, hlen⟩
  · exact hinv k q h

theorem unregisterLocked_present {st : State} {p q : Nat} {c : Client}
    (hl : lookup st.Clients c.ID = some q) (hopen : c.Send.closed = false) :
    unregisterLocked p c st = .ok
      { Clients := delete st.Clients c.ID,
        heap := st.heap.set p { c with Send := { c.Send with closed := true } } } := by
  simp [unregisterLocked, hl, Chan.close, hopen]

theorem unregisterLocked_absent {st : State} {p : Nat} {c : Client}
    (hl : lookup st.Clients c.ID = none) : unregisterLocked p c st = .ok st := by
  simp [unregisterLocked, hl]

theorem inv_delete_close {st : State} (hinv : Inv st) {p : Nat} {c : Client}
    (hp : st.heap[p]? = some c) (c1 : Client) :
    Inv { Clients := delete st.Clients c.ID, heap := st.heap.set p c1 } := by
  intro k q h
  simp only [lookup_delete] at h
  split at h
  · cases h
  · rename_i hk
    obtain ⟨d, hd, hid, hopen, hlen⟩ := hinv k q h
    have hne : p ≠ q := by
      intro hpq; subst hpq
      rw [hp] at hd; cases hd
      exact hk hid.symm
    exact ⟨d, by simp only [heap_set_ne _ hne]; exact hd, hid, hopen, hlen⟩

theorem unregisterLocked_inv {st st1 : State} {p : Nat} {c : Client} (hinv : Inv st)
    (hp : st.heap[p]? = some c) (h : unregisterLocked p c st = .ok st1) : Inv st1 := by
  cases hl : lookup st.Clients c.ID with
  | none =>
    rw [unregisterLocked_absent hl] at h
    cases h
    exact hinv
  | some q =>
    cases hc : c.Send.closed with
    | true => simp [unregisterLocked, hl, Chan.close, hc] at h
    | false =>
      rw [unregisterLocked_present hl hc] at h
      cases h
      exact inv_delete_close hinv hp _

theorem register_inv (marshal : WSMessage → Bytes) (hint : List String) (now : Time)
    {st : State} (hinv : Inv st) {p : Nat} {c : Client} (hp : st.heap[p]? = some c)
    (hopen : c.Send.closed = false) (hlen : c.Send.buf.length ≤ c.Send.cap) :
    ∃ st1, register marshal hint now p st = .ok st1 ∧ Inv st1 := by
  simp only [register, hp]
  split
  · obtain ⟨st1, e, inv1, -⟩ := broadcastToStream_spec hint
      { st with Clients := put st.Clients c.ID p } c.StreamID
      (marshal (viewerJoined c now)) (inv_put hinv hp hopen hlen)
    exact ⟨st1, e, inv1⟩
  · exact ⟨_, rfl, inv_put hinv hp hopen hlen⟩

theorem unregister_inv (marshal : WSMessage → Bytes) (hint : List String) (now : Time)
    {st st1 : State} (hinv : Inv st) {p : Nat}
    (h : unregister marshal hint now p st = .ok st1) : Inv st1 := by
  unfold unregister at h
  cases hp : st.heap[p]? with
  | none => simp [hp] at h
  | some c =>
    simp only [hp] at h
    cases hu : unregisterLocked p c st with
    | error e => simp [hu] at h
    | ok st0 =>
      simp only [hu] at h
      have inv0 := unregisterLocked_inv hinv hp hu
      split at h
      · obtain ⟨st2, e, inv2, -⟩ := broadcastToStream_spec hint st0 c.StreamID
          (marshal (viewerLeft c now)) inv0
        rw [e] at h
        cases h
        exact inv2
      · cases h
        exact inv0

theorem inv_alloc {st : State} (hinv : Inv st) (userID streamID userType : String) :
    Inv (allocClient userID streamID userType st).2 := by
  intro k q h
  obtain ⟨d, hd, hrest⟩ := hinv k q h
  refine ⟨d, ?_, hrest⟩
  have hq : q < st.heap.length := by
    by_contra hn
    rw [List.getElem?_eq_none (Nat.le_of_not_lt hn)] at hd
    cases hd
  simp only [allocClient]
  rw [List.getElem?_append_left hq]
  exact hd

theorem NewClient_inv (marshal : WSMessage → Bytes) (hint : List String) (now : Time)
    (userID streamID userType : String) {st : State} (hinv : Inv st) :
    ∃ st1, NewClient marshal hint now userID streamID userType st =
      .ok (st.heap.length, st1) ∧ Inv st1 := by
  have hp : (allocClient userID streamID userType st).2.heap[st.heap.length]? =
      some { ID := userID, StreamID := streamID, UserType := userType, Send := Chan.make256 } := by
    simp [allocClient]
  obtain ⟨st1, e, inv1⟩ := register_inv marshal hint now
    (inv_alloc hinv userID streamID userType) hp rfl (Nat.zero_le _)
  refine ⟨st1, ?_, inv1⟩
  unfold NewClient
  have h1 : (allocClient userID streamID userType st).1 = st.heap.length := rfl
  rw [h1, e]

theorem inv_init : Inv State.init := by
  intro k p h
  simp [State.init, lookup] at h

theorem step_inv (marshal : WSMessage → Bytes) {st st1 : State} (hinv : Inv st) (s : Step)
    (h : step marshal st s = .ok st1) : Inv st1 := by
  cases s with
  | newClient userID streamID userType now hint =>
    obtain ⟨st2, e, inv2⟩ := NewClient_inv marshal hint now userID streamID userType hinv
    simp only [step, e] at h
    cases h
    exact inv2
  | unregister p now hint => exact unregister_inv marshal hint now hinv h
  | broadcast streamID message hint =>
    obtain ⟨st2, e, inv2, -⟩ := broadcastToStream_spec hint st streamID message hinv
    simp only [step, e] at h
    cases h
    exact inv2

theorem run_inv (marshal : WSMessage → Bytes) :
    ∀ (steps : List Step) (st st1 : State), Inv st → run marshal steps st = .ok st1 → Inv st1 := by
  intro steps
  induction steps with
  | nil =>
    intro st st1 hinv h
    cases h
    exact hinv
  | cons s rest ih =>
    intro st st1 hinv h
    simp only [run] at h
    cases hs : step marshal st s with
    | error e => simp [hs] at h
    | ok st2 =>
      simp only [hs] at h
      exact ih st2 st1 (step_inv marshal hinv s hs) h

/-- C10. Registry invariant: in every state reached from the empty registry by
`NewClient` registrations (ids may repeat), Unregister steps and
`broadcastToStream` steps, every entry of `Hub.Clients` is stored under its own
client's id and has an open mailbox holding at most capacity messages, and a
`broadcastToStream` from such a state returns without panicking, so it never
sends on a closed mailbox. -/
theorem reachable_registry_invariant (marshal : WSMessage → Bytes) (steps : List Step)
    (st : State) (h : run marshal steps State.init = .ok st) :
    (∀ k p, lookup st.Clients k = some p →
      ∃ c, st.heap[p]? = some c ∧ c.ID = k ∧ c.Send.closed = false ∧
        c.Send.buf.length ≤ c.Send.cap) ∧
    ∀ hint streamID message, ∃ st1, broadcastToStream hint st streamID message = .ok st1 := by
  have hinv : Inv st := run_inv marshal steps State.init st inv_init h
  refine ⟨hinv, fun hint streamID message => ?_⟩
  obtain ⟨st1, e, -⟩ := broadcastToStream_spec hint st streamID message hinv
  exact ⟨st1, e⟩


theorem ite_receive_fields (P : Prop) [Decidable P] (c : Client) (m : Bytes) :
    (if P then c.receive m else c).ID = c.ID ∧
    (if P then c.receive m else c).StreamID = c.StreamID ∧
    (if P then c.receive m else c).UserType = c.UserType := by
  split
  · exact ⟨Client.receive_ID c m, Client.receive_StreamID c m, Client.receive_UserType c m⟩
  · exact ⟨rfl, rfl, rfl⟩

/-- C4. Registration visibility: after the Register step of a viewer whose
mailbox is the open, empty, capacity-256 channel built by `NewClient`
(insertion, then the `viewer_joined` broadcast), `GetStreamViewers` of the
client's stream lists the client's id. -/
theorem register_viewer_listed (marshal : WSMessage → Bytes) (hint hint2 : List String)
    (now : Time) (st : State) (p : Nat) (c : Client) (hinv : Inv st)
    (hp : st.heap[p]? = some c) (hnew : c.Send = Chan.make256)
    (hviewer : c.UserType = "viewer") :
    ∃ st1, register marshal hint now p st = .ok st1 ∧
      ∃ r, GetStreamViewers hint2 st1 c.StreamID = .ok r ∧ c.ID ∈ r.2 := by
  have hopen : c.Send.closed = false := by rw [hnew]; rfl
  have hlen : c.Send.buf.length ≤ c.Send.cap := by rw [hnew]; exact Nat.zero_le _
  have inv0 := inv_put hinv hp hopen hlen
  obtain ⟨st1, e, inv1, -, heap1, look1, -⟩ := broadcastToStream_spec hint
    { st with Clients := put st.Clients c.ID p } c.StreamID
    (marshal (viewerJoined c now)) inv0
  have hl0 : lookup (put st.Clients c.ID p) c.ID = some p := by simp [lookup_put]
  refine ⟨st1, by simp only [register, hp, hviewer, if_true]; exact e, ?_⟩
  obtain ⟨r, hr, hmem⟩ := GetStreamViewers_spec hint2 st1 c.StreamID inv1
  refine ⟨r, hr, (hmem c.ID).2 ⟨p, _, ?_, heap1 p c hp, ?_⟩⟩
  · rw [look1 c.ID p c hl0 hp]
    have : ¬ c.Send.cap ≤ c.Send.buf.length := by rw [hnew]; decide
    simp [this]
  · obtain ⟨-, h2, h3⟩ := ite_receive_fields
      (lookup (put st.Clients c.ID p) c.ID = some p ∧ c.StreamID = c.StreamID) c
      (marshal (viewerJoined c now))
    exact ⟨h2, h3.trans hviewer⟩

theorem Client.receive_of_room {c : Client} (m : Bytes)
    (h : c.Send.buf.length < c.Send.cap) :
    c.receive m = { c with Send := { c.Send with buf := c.Send.buf ++ [m] } } := by
  simp [Client.receive, h]

theorem register_viewer_spec (marshal : WSMessage → Bytes) (hint : List String) (now : Time)
    {st : State} {p : Nat} {c : Client} (hinv : Inv st) (hp : st.heap[p]? = some c)
    (hopen : c.Send.closed = false) (hlen : c.Send.buf.length ≤ c.Send.cap)
    (hviewer : c.UserType = "viewer") :
    ∃ st1, register marshal hint now p st = .ok st1 ∧ Inv st1 ∧
      (∀ q d, st.heap[q]? = some d → st1.heap[q]? = some
        (if lookup (put st.Clients c.ID p) d.ID = some q ∧ d.StreamID = c.StreamID
          then d.receive (marshal (viewerJoined c now)) else d)) ∧
      (∀ k q d, lookup (put st.Clients c.ID p) k = some q → st.heap[q]? = some d →
        lookup st1.Clients k =
          if d.StreamID = c.StreamID ∧ d.Send.cap ≤ d.Send.buf.length then none else some q) := by
  obtain ⟨st1, e, inv1, -, heap1, look1, -⟩ := broadcastToStream_spec hint
    { st with Clients := put st.Clients c.ID p } c.StreamID
    (marshal (viewerJoined c now)) (inv_put hinv hp hopen hlen)
  refine ⟨st1, ?_, inv1, heap1, look1⟩
  simp only [register, hp]
  rw [if_pos hviewer]
  exact e

theorem unregister_viewer_spec (marshal : WSMessage → Bytes) (hint : List String) (now : Time)
    {st : State} {p : Nat} {c : Client} (hinv : Inv st) (hp : st.heap[p]? = some c)
    (hl : lookup st.Clients c.ID = some p) (hviewer : c.UserType = "viewer") :
    ∃ st1, unregister marshal hint now p st = .ok st1 ∧ Inv st1 ∧
      lookup st1.Clients c.ID = none ∧
      (∀ q d, q ≠ p → st.heap[q]? = some d → st1.heap[q]? = some
        (if lookup (delete st.Clients c.ID) d.ID = some q ∧ d.StreamID = c.StreamID
          then d.receive (marshal (viewerLeft c now)) else d)) := by
  have hopen := (inv_heap_eq hinv hl hp).2.1
  have inv0 := inv_delete_close hinv hp { c with Send := { c.Send with closed := true } }
  obtain ⟨st1, e, inv1, -, heap1, -, none1⟩ := broadcastToStream_spec hint _ c.StreamID
    (marshal (viewerLeft c now)) inv0
  refine ⟨st1, ?_, inv1, none1 c.ID (by simp [lookup_delete]), ?_⟩
  · simp only [unregister, hp, unregisterLocked_present hl hopen]
    rw [if_pos hviewer]
    exact e
  · intro q d hq hd
    exact heap1 q d (by simp only [heap_set_ne _ (Ne.symm hq)]; exact hd)

/-- C7. Join/leave pairing: with `w` registered on stream `X` with at least two
free mailbox slots and `v` a newly built viewer on `X` with another id,
Register(v) followed by Unregister(v) appends to the mailbox of `w` exactly the
`viewer_joined` message and then the `viewer_left` message about `v`, and
nothing else. -/
theorem register_unregister_pair (marshal : WSMessage → Bytes) (hint1 hint2 : List String)
    (t1 t2 : Time) (st : State) (X : String) (pw pv : Nat) (w v : Client) (hinv : Inv st)
    (hlw : lookup st.Clients w.ID = some pw) (hw : st.heap[pw]? = some w)
    (hwX : w.StreamID = X)
    (hroom : w.Send.buf.length + 2 ≤ w.Send.cap)
    (hv : st.heap[pv]? = some v) (hnew : v.Send = Chan.make256)
    (hvv : v.UserType = "viewer") (hvX : v.StreamID = X) (hne : v.ID ≠ w.ID) :
    ∃ st1 st2, register marshal hint1 t1 pv st = .ok st1 ∧
      unregister marshal hint2 t2 pv st1 = .ok st2 ∧
      st2.heap[pw]? = some { w with Send := { w.Send with buf := w.Send.buf ++
        [marshal { Typ := "viewer_joined", StreamID := X, UserID := v.ID, UserType := "viewer",
                   Content := "", Product := none, Timestamp := t1 },
         marshal { Typ := "viewer_left", StreamID := X, UserID := v.ID, UserType := "viewer",
                   Content := "", Product := none, Timestamp := t2 }] } } := by
  have hopen : v.Send.closed = false := by rw [hnew]; rfl
  have hlen : v.Send.buf.length ≤ v.Send.cap := by rw [hnew]; exact Nat.zero_le _
  have hpne : pw ≠ pv := by
    intro h; subst h
    rw [hw] at hv; cases hv
    exact hne rfl
  have hwne : ¬ w.ID = v.ID := fun h => hne h.symm
  have hmj : viewerJoined v t1 =
      { Typ := "viewer_joined", StreamID := X, UserID := v.ID, UserType := "viewer",
        Content := "", Product := none, Timestamp := t1 } := by
    simp [viewerJoined, hvX, hvv]
  -- the Register step
  obtain ⟨st1, e1, inv1, heap1, look1⟩ :=
    register_viewer_spec marshal hint1 t1 hinv hv hopen hlen hvv
  have hlv0 : lookup (put st.Clients v.ID pv) v.ID = some pv := by simp [lookup_put]
  have hlw0 : lookup (put st.Clients v.ID pv) w.ID = some pw := by
    simp [lookup_put, hwne, hlw]
  obtain ⟨v1, hv1, hv1id, hv1X, hv1v⟩ : ∃ v1, st1.heap[pv]? = some v1 ∧ v1.ID = v.ID ∧
      v1.StreamID = X ∧ v1.UserType = "viewer" := by
    refine ⟨_, heap1 pv v hv, ?_⟩
    obtain ⟨h1, h2, h3⟩ := ite_receive_fields
      (lookup (put st.Clients v.ID pv) v.ID = some pv ∧ v.StreamID = v.StreamID) v
      (marshal (viewerJoined v t1))
    exact ⟨h1, h2.trans hvX, h3.trans hvv⟩
  have hw1 : st1.heap[pw]? = some
      { w with Send := { w.Send with buf := w.Send.buf ++ [marshal (viewerJoined v t1)] } } := by
    rw [heap1 pw w hw, if_pos ⟨hlw0, hwX.trans hvX.symm⟩,
      Client.receive_of_room _ (by omega : w.Send.buf.length < w.Send.cap)]
  have hlv1 : lookup st1.Clients v1.ID = some pv := by
    rw [hv1id, look1 v.ID pv v hlv0 hv, if_neg]
    rw [hnew]
    exact fun h => absurd h.2 (by decide)
  have hlw1 : lookup st1.Clients w.ID = some pw := by
    rw [look1 w.ID pw w hlw0 hw, if_neg]
    exact fun h => absurd h.2 (by omega)
  have hml : viewerLeft v1 t2 =
      { Typ := "viewer_left", StreamID := X, UserID := v.ID, UserType := "viewer",
        Content := "", Product := none, Timestamp := t2 } := by
    simp [viewerLeft, hv1id, hv1X, hv1v]
  -- the Unregister step
  obtain ⟨st2, e2, -, -, heap2⟩ := unregister_viewer_spec marshal hint2 t2 inv1 hv1 hlv1 hv1v
  refine ⟨st1, st2, e1, e2, ?_⟩
  have hlw2 : lookup (delete st1.Clients v1.ID) w.ID = some pw := by
    rw [lookup_delete, hv1id, if_neg hwne]
    exact hlw1
  rw [heap2 pw _ hpne hw1, if_pos ⟨hlw2, hwX.trans hv1X.symm⟩, Client.receive_of_room, hmj, hml]
  · simp
  · show (w.Send.buf ++ [marshal (viewerJoined v t1)]).length < w.Send.cap
    simp only [List.length_append, List.length_singleton]
    omega


/-! ## The inbound pump and the announcement handler -/

theorem readPumpOutgoing_eq (c : Client) (now : Time) (wire : WSMessage) :
    readPumpOutgoing c now wire =
      if wire.Typ = "chat" ∨
          ((wire.Typ = "product_showcase" ∨ wire.Typ = "special_offer") ∧ c.UserType = "seller") ∨
          (wire.Typ = "purchase_intent" ∧ c.UserType = "viewer")
      then some (stamp c now wire) else none := by
  unfold readPumpOutgoing
  simp only [stamp]
  by_cases h1 : wire.Typ = "chat"
  · simp [h1]
  · by_cases h2 : wire.Typ = "product_showcase"
    · by_cases hs : c.UserType = "seller" <;> simp [h2, hs]
    · by_cases h3 : wire.Typ = "purchase_intent"
      · by_cases hv : c.UserType = "viewer" <;> simp [h3, hv]
      · by_cases h4 : wire.Typ = "special_offer"
        · by_cases hs : c.UserType = "seller" <;> simp [h4, hs]
        · simp [h1, h2, h3, h4]

/-- C5. Identity integrity: a message that `readPump` hands to the broadcast
has `UserID`, `UserType` and `StreamID` of the client and the server's current
time as `Timestamp`, whatever the wire said, and keeps `Type`, `Content` and
`Product` of the decoded message. -/
theorem readPump_overwrites_identity (c : Client) (now : Time) (wire m : WSMessage)
    (h : readPumpOutgoing c now wire = some m) :
    m = { Typ := wire.Typ, StreamID := c.StreamID, UserID := c.ID, UserType := c.UserType,
          Content := wire.Content, Product := wire.Product, Timestamp := now } := by
  unfold readPumpOutgoing at h
  simp only [stamp] at h
  split_ifs at h <;> cases h <;> rfl

/-- C6. Role gating: `readPump` submits a decoded message to
`broadcastToStream` of the client's stream exactly when its type is `chat`, or
`product_showcase` or `special_offer` from a seller, or `purchase_intent` from a
viewer; otherwise the message is dropped and the state is unchanged. -/
theorem readPump_role_gate (marshal : WSMessage → Bytes) (hint : List String) (now : Time)
    (p : Nat) (wire : WSMessage) (st : State) (c : Client) (hp : st.heap[p]? = some c) :
    (readPumpOutgoing c now wire =
      if wire.Typ = "chat" ∨
          ((wire.Typ = "product_showcase" ∨ wire.Typ = "special_offer") ∧ c.UserType = "seller") ∨
          (wire.Typ = "purchase_intent" ∧ c.UserType = "viewer")
      then some (stamp c now wire) else none) ∧
    readPumpMessage marshal hint now p wire st =
      if wire.Typ = "chat" ∨
          ((wire.Typ = "product_showcase" ∨ wire.Typ = "special_offer") ∧ c.UserType = "seller") ∨
          (wire.Typ = "purchase_intent" ∧ c.UserType = "viewer")
      then broadcastToStream hint st c.StreamID (marshal (stamp c now wire))
      else .ok st := by
  refine ⟨readPumpOutgoing_eq c now wire, ?_⟩
  simp only [readPumpMessage, hp, readPumpOutgoing_eq]
  by_cases h : wire.Typ = "chat" ∨
      ((wire.Typ = "product_showcase" ∨ wire.Typ = "special_offer") ∧ c.UserType = "seller") ∨
      (wire.Typ = "purchase_intent" ∧ c.UserType = "viewer")
  · rw [if_pos h, if_pos h]
  · rw [if_neg h, if_neg h]

/-- C8, as the code has it: a message from the inbound pump or from the hub's
join/leave notification carries the server's current time and the id and role
of the client it comes from; a message from `SendStreamAnnouncement` is built
only for a request whose role is `seller` and carries the `user_id` and
`user_type` of the request body. -/
theorem producers_identity (c : Client) (now : Time) (wire : WSMessage) (streamID : String)
    (body : Option AnnouncementRequest) :
    (readPumpOutgoing c now wire = none ∨
      ∃ m, readPumpOutgoing c now wire = some m ∧
        m.Timestamp = now ∧ m.UserID = c.ID ∧ m.UserType = c.UserType) ∧
    ((viewerJoined c now).Timestamp = now ∧ (viewerJoined c now).UserID = c.ID ∧
      (viewerJoined c now).UserType = c.UserType) ∧
    ((viewerLeft c now).Timestamp = now ∧ (viewerLeft c now).UserID = c.ID ∧
      (viewerLeft c now).UserType = c.UserType) ∧
    (announcementOutgoing streamID body = none ∨
      ∃ req m, body = some req ∧ req.UserType = "seller" ∧
        announcementOutgoing streamID body = some m ∧
        m.Typ = "announcement" ∧ m.StreamID = streamID ∧
        m.UserID = req.UserID ∧ m.UserType = req.UserType ∧ m.Content = req.Message) := by
  refine ⟨?_, ⟨rfl, rfl, rfl⟩, ⟨rfl, rfl, rfl⟩, ?_⟩
  · rw [readPumpOutgoing_eq]
    split
    · exact Or.inr ⟨_, rfl, rfl, rfl, rfl⟩
    · exact Or.inl rfl
  · cases body with
    | none => exact Or.inl rfl
    | some req =>
      by_cases hs : req.UserType = "seller"
      · refine Or.inr ⟨req, announcementMessage streamID req, rfl, hs, ?_, rfl, rfl, rfl, rfl, rfl⟩
        simp [announcementOutgoing, hs]
      · exact Or.inl (by simp [announcementOutgoing, hs])

/-- C8 fails for `SendStreamAnnouncement`: with no client registered at all, a
request naming `mallory` as a seller is answered 200 and the message handed to
`BroadcastToStream` carries the `user_id` of the request body and the zero
timestamp. -/
theorem announcement_identity_from_request :
    announcementOutgoing "s" (some { Message := "hi", UserID := "mallory", UserType := "seller" }) =
      some { Typ := "announcement", StreamID := "s", UserID := "mallory", UserType := "seller",
             Content := "hi", Product := none, Timestamp := 0 } ∧
    SendStreamAnnouncement tagMarshal [] "s"
        (some { Message := "hi", UserID := "mallory", UserType := "seller" }) State.init =
      (200, .ok State.init) ∧
    State.init.Clients = [] :=
  ⟨rfl, rfl, rfl⟩

/-! ## Evaluations -/

set_option maxRecDepth 100000

theorem inv_exampleState : Inv exampleState := by
  intro k p h
  simp only [exampleState, lookup] at h
  split_ifs at h <;> cases h <;> subst_vars <;> exact ⟨_, rfl, rfl, rfl, by decide⟩

/-- C3 on the code: with viewers `w` and `c` on stream `s`, a first
Unregister(c) removes `c` and queues one `viewer_left` for `w`; a second
Unregister(c) leaves the registry as it is and queues a second `viewer_left`
about `c` for `w`. -/
theorem unregister_twice_notifies_twice :
    ∃ s1 s2,
      run tagMarshal [Step.newClient "w" "s" "viewer" 1 [], Step.newClient "c" "s" "viewer" 2 [],
        Step.unregister 1 3 []] State.init = .ok s1 ∧
      unregister tagMarshal [] 4 1 s1 = .ok s2 ∧
      s1.Clients = [("w", 0)] ∧ s2.Clients = [("w", 0)] ∧
      s1.heap.map (fun c => c.Send.buf) = [[[1, 1, 119], [1, 2, 99], [2, 3, 99]], [[1, 2, 99]]] ∧
      s2.heap.map (fun c => c.Send.buf) =
        [[[1, 1, 119], [1, 2, 99], [2, 3, 99], [2, 4, 99]], [[1, 2, 99]]] :=
  ⟨_, _, rfl, rfl, rfl, rfl, rfl, rfl⟩

/-- C9 on the code: a viewer `u1` registers and its mailbox fills up; the next
broadcast evicts it, closing its mailbox and emptying the registry; a new
client registers under the id `u1`, which is not a key at that moment; the
Unregister of the evicted client then finds the id in the registry and closes
the already closed mailbox, which panics. -/
theorem evicted_client_closed_twice :
    run tagMarshal saturatingRun State.init = .ok saturatedState ∧
    step tagMarshal saturatedState (Step.broadcast "s" [7] []) = .ok evictedState ∧
    lookup evictedState.Clients "u1" = none ∧
    step tagMarshal evictedState (Step.newClient "u1" "s" "viewer" 2 []) = .ok reconnectedState ∧
    step tagMarshal reconnectedState (Step.unregister 0 3 []) = .error .closeOfClosed :=
  ⟨rfl, rfl, rfl, rfl, rfl⟩

/-! ## Instances -/

theorem broadcastToStream_delivers_by_stream_witness :
    Inv exampleState ∧
    ∃ st1, broadcastToStream ["c", "a"] exampleState "s1" [7] = .ok st1 ∧
      ∀ k p c, lookup exampleState.Clients k = some p → exampleState.heap[p]? = some c →
        (c.StreamID = "s1" → c.Send.buf.length < c.Send.cap →
          st1.heap[p]? = some { c with Send := { c.Send with buf := c.Send.buf ++ [[7]] } } ∧
          lookup st1.Clients k = some p) ∧
        (c.StreamID ≠ "s1" → st1.heap[p]? = some c ∧ lookup st1.Clients k = some p) :=
  ⟨inv_exampleState,
   broadcastToStream_delivers_by_stream ["c", "a"] exampleState "s1" [7] inv_exampleState⟩

theorem broadcastToStream_evicts_full_witness :
    (Inv exampleState ∧ lookup exampleState.Clients "c" = some 2 ∧
      exampleState.heap[2]? = some exampleFull ∧ exampleFull.StreamID = "s1" ∧
      exampleFull.Send.buf.length = exampleFull.Send.cap) ∧
    ∃ st1, broadcastToStream [] exampleState "s1" [7] = .ok st1 ∧
      st1.heap[2]? = some { exampleFull with Send := { exampleFull.Send with closed := true } } ∧
      lookup st1.Clients exampleFull.ID = none ∧
      (∀ hint2, ∃ r, GetStreamViewers hint2 st1 "s1" = .ok r ∧ exampleFull.ID ∉ r.2) ∧
      (∀ q d, q ≠ 2 → exampleState.heap[q]? = some d → ∃ d1, st1.heap[q]? = some d1 ∧
        (d1.Send.buf = d.Send.buf ∨ d1.Send.buf = d.Send.buf ++ [[7]])) :=
  ⟨⟨inv_exampleState, rfl, rfl, rfl, rfl⟩,
   broadcastToStream_evicts_full [] exampleState "s1" [7] "c" 2 exampleFull
     inv_exampleState rfl rfl rfl rfl⟩

theorem register_viewer_listed_witness :
    (Inv exampleState ∧ exampleState.heap[3]? = some exampleNew ∧
      exampleNew.Send = Chan.make256 ∧ exampleNew.UserType = "viewer") ∧
    ∃ st1, register tagMarshal [] 5 3 exampleState = .ok st1 ∧
      ∃ r, GetStreamViewers ["v"] st1 exampleNew.StreamID = .ok r ∧ exampleNew.ID ∈ r.2 :=
  ⟨⟨inv_exampleState, rfl, rfl, rfl⟩,
   register_viewer_listed tagMarshal [] ["v"] 5 exampleState 3 exampleNew
     inv_exampleState rfl rfl rfl⟩

theorem register_unregister_pair_witness :
    (Inv exampleState ∧ lookup exampleState.Clients exampleViewer.ID = some 0 ∧
      exampleState.heap[0]? = some exampleViewer ∧ exampleViewer.StreamID = "s1" ∧
      exampleViewer.Send.buf.length + 2 ≤ exampleViewer.Send.cap ∧
      exampleState.heap[3]? = some exampleNew ∧ exampleNew.Send = Chan.make256 ∧
      exampleNew.UserType = "viewer" ∧ exampleNew.StreamID = "s1" ∧
      exampleNew.ID ≠ exampleViewer.ID) ∧
    ∃ st1 st2, register tagMarshal [] 5 3 exampleState = .ok st1 ∧
      unregister tagMarshal [] 6 3 st1 = .ok st2 ∧
      st2.heap[0]? = some { exampleViewer with Send := { exampleViewer.Send with
        buf := exampleViewer.Send.buf ++
          [tagMarshal { Typ := "viewer_joined", StreamID := "s1", UserID := exampleNew.ID,
                        UserType := "viewer", Content := "", Product := none, Timestamp := 5 },
           tagMarshal { Typ := "viewer_left", StreamID := "s1", UserID := exampleNew.ID,
                        UserType := "viewer", Content := "", Product := none,
                        Timestamp := 6 }] } } :=
  ⟨⟨inv_exampleState, rfl, rfl, rfl, by decide, rfl, rfl, rfl, rfl, by decide⟩,
   register_unregister_pair tagMarshal [] [] 5 6 exampleState "s1" 0 3 exampleViewer exampleNew
     inv_exampleState rfl rfl rfl (by decide) rfl rfl rfl rfl (by decide)⟩

theorem readPump_overwrites_identity_witness :
    readPumpOutgoing exampleViewer 7 forgedChat =
      some { Typ := "chat", StreamID := "s1", UserID := "a", UserType := "viewer",
             Content := "hello", Product := none, Timestamp := 7 } ∧
    ({ Typ := "chat", StreamID := "s1", UserID := "a", UserType := "viewer",
       Content := "hello", Product := none, Timestamp := 7 } : WSMessage) =
      { Typ := forgedChat.Typ, StreamID := exampleViewer.StreamID, UserID := exampleViewer.ID,
        UserType := exampleViewer.UserType, Content := forgedChat.Content,
        Product := forgedChat.Product, Timestamp := 7 } :=
  ⟨rfl, readPump_overwrites_identity exampleViewer 7 forgedChat _ rfl⟩

theorem readPump_role_gate_witness :
    exampleState.heap[0]? = some exampleViewer ∧
    readPumpOutgoing exampleViewer 7 { forgedChat with Typ := "product_showcase" } = none ∧
    readPumpMessage tagMarshal [] 7 0 { forgedChat with Typ := "product_showcase" } exampleState =
      .ok exampleState :=
  ⟨rfl,
   (readPump_role_gate tagMarshal [] 7 0 { forgedChat with Typ := "product_showcase" }
      exampleState exampleViewer rfl).1.trans rfl,
   (readPump_role_gate tagMarshal [] 7 0 { forgedChat with Typ := "product_showcase" }
      exampleState exampleViewer rfl).2.trans rfl⟩

theorem reachable_registry_invariant_witness :
    run tagMarshal exampleRun State.init = .ok exampleRunState ∧
    (∀ k p, lookup exampleRunState.Clients k = some p →
      ∃ c, exampleRunState.heap[p]? = some c ∧ c.ID = k ∧ c.Send.closed = false ∧
        c.Send.buf.length ≤ c.Send.cap) ∧
    ∀ hint streamID message,
      ∃ st1, broadcastToStream hint exampleRunState streamID message = .ok st1 :=
  ⟨rfl, reachable_registry_invariant tagMarshal exampleRun exampleRunState rfl⟩

end LiveStream
